import Mathlib

/-!
# Phemossa core: shallow embedding

A shallow embedding of the Phemossa peer-to-peer social feed core:
the event model (`events`), the storage layer (`storage`), the follow
system (`follow.ts`), the feed engine (`feed`/`system.ts`) and the gossip
synchronizer (`gossip.ts`), together with theorems checking the
specification's claims about them.

Modelling conventions:
* Machine numbers (timestamps in ms) are `Nat`.
* Byte strings and their base64 renderings are identified: `btoa`/`atob`
  form a bijection between byte strings and base64 strings, so public
  keys, signatures and private keys are all modelled as `String`
  (`publicKeyToString`/`stringToPublicKey` become the identity under this
  bijection).
* The cryptographic collaborators (SHA-256 hex digest, ed25519 sign and
  verify) are external interfaces in the specification; they are
  parameters of the embedding, collected in a `Crypto` record.  Theorems
  about signature verification assume the signature scheme's correctness
  for the keypair in question, which is the documented contract of the
  Identity collaborator.
* `JSON.stringify` of the canonical event data is modelled by a concrete
  rendering function that emits the fields in the insertion order the
  source uses and omits absent (`undefined`) optional fields, exactly as
  `JSON.stringify` does.
* IndexedDB object stores are association lists keyed as the source keys
  them (`events` by `id`, `follows` by `id`, `profiles` by `author`);
  `db.put` is upsert-by-key.  JS `Set`s are lists used only through
  membership.
* `Array.prototype.sort` with a timestamp comparator is modelled by
  `List.insertionSort` with the corresponding relation.
-/

set_option linter.unusedVariables false

namespace Phemossa

/-- The event types of the system (`EventType` in the event model source:
`'post' | 'follow' | 'unfollow' | 'profile'`). -/
inductive EventType
  | post
  | follow
  | unfollow
  | profile
deriving DecidableEq, Repr

/-- Content of a post event (`PostEvent['content']`).  The E2EE payload is
kept opaque (its internals are out of scope). -/
structure PostContent where
  topic : Option String
  text : Option String
  mentions : Option (List String)
  replyTo : Option String
  encrypted : Option String
deriving DecidableEq, Repr

/-- Content of a follow event (`FollowEvent['content']`). -/
structure FollowContent where
  target : String
  encryptionPublicKey : Option String
deriving DecidableEq, Repr

/-- Content of an unfollow event (`UnfollowEvent['content']`). -/
structure UnfollowContent where
  target : String
deriving DecidableEq, Repr

/-- Content of a profile event (`ProfileEvent['content']`). -/
structure ProfileContent where
  displayName : Option String
  username : Option String
  bio : Option String
deriving DecidableEq, Repr

/-- Type-specific event content (the union `Event = PostEvent | FollowEvent
| UnfollowEvent | ProfileEvent` discriminated on `type`). -/
inductive Content
  | post (c : PostContent)
  | follow (c : FollowContent)
  | unfollow (c : UnfollowContent)
  | profile (c : ProfileContent)
deriving DecidableEq, Repr

/-- The discriminant of a content value. -/
def typeOf : Content → EventType
  | .post _ => .post
  | .follow _ => .follow
  | .unfollow _ => .unfollow
  | .profile _ => .profile

/-- The string form of an event type, as it appears on the wire. -/
def typeStr : EventType → String
  | .post => "post"
  | .follow => "follow"
  | .unfollow => "unfollow"
  | .profile => "profile"

/-- An event (`BaseEvent`): content hash id, author public key (base64),
author-supplied timestamp in ms, signature (base64) and typed content. -/
structure Event where
  id : String
  author : String
  timestamp : Nat
  signature : String
  content : Content
deriving DecidableEq, Repr

/-- `event.type`, derived from the typed content. -/
def Event.type (e : Event) : EventType := typeOf e.content

/-- `DEFAULT_TOPIC` from the event model source. -/
def DEFAULT_TOPIC : String := "general"

/-- ASCII whitespace (the whitespace classes the sources' inputs use). -/
def isWsp (ch : Char) : Bool := ch = ' ' ∨ ch = '\t' ∨ ch = '\n' ∨ ch = '\r'

/-- `String.prototype.trim`, modelled by structural recursion on the
character list. -/
def trimStr (s : String) : String :=
  (((s.toList.dropWhile isWsp).reverse.dropWhile isWsp).reverse).asString

/-- Lower-case one character (ASCII). -/
def lowerChar (ch : Char) : Char :=
  if 'A' ≤ ch ∧ ch ≤ 'Z' then Char.ofNat (ch.toNat + 32) else ch

/-- `String.prototype.toLowerCase` (ASCII), structural recursion. -/
def toLowerStr (s : String) : String := (s.toList.map lowerChar).asString

/-- JSON rendering of a string literal (escaping is irrelevant here: the
renderings only feed the opaque hash, and both creation and verification
use the same rendering). -/
def jsonStr (s : String) : String := "\x22" ++ s ++ "\x22"

/-- JSON rendering of one `key: value` member. -/
def jsonField (k v : String) : String := jsonStr k ++ ":" ++ v

/-- JSON object from an ordered list of members, omitted members dropped
(`JSON.stringify` omits `undefined` properties). -/
def jsonObj (fields : List (Option String)) : String :=
  "\x7b" ++ String.intercalate "," (fields.filterMap id) ++ "\x7d"

/-- JSON rendering of a string array. -/
def jsonStrList (l : List String) : String :=
  "[" ++ String.intercalate "," (l.map jsonStr) ++ "]"

/-- `JSON.stringify(content)`: fields in the insertion order used by the
event creators, absent options omitted. -/
def canonContent : Content → String
  | .post pc => jsonObj
      [pc.topic.map (fun t => jsonField "topic" (jsonStr t)),
       pc.text.map (fun t => jsonField "text" (jsonStr t)),
       pc.mentions.map (fun m => jsonField "mentions" (jsonStrList m)),
       pc.replyTo.map (fun r => jsonField "replyTo" (jsonStr r)),
       pc.encrypted.map (fun p => jsonField "encrypted" p)]
  | .follow fc => jsonObj
      [some (jsonField "target" (jsonStr fc.target)),
       fc.encryptionPublicKey.map (fun k => jsonField "encryptionPublicKey" (jsonStr k))]
  | .unfollow uc => jsonObj [some (jsonField "target" (jsonStr uc.target))]
  | .profile pc => jsonObj
      [pc.displayName.map (fun d => jsonField "displayName" (jsonStr d)),
       pc.username.map (fun u => jsonField "username" (jsonStr u)),
       pc.bio.map (fun b => jsonField "bio" (jsonStr b))]

/-- `JSON.stringify({type, author, timestamp, content})`: the canonical
event data hashed by `createEventIdAsync`. -/
def canonEventData (t : EventType) (author : String) (timestamp : Nat)
    (content : Content) : String :=
  jsonObj
    [some (jsonField "type" (jsonStr (typeStr t))),
     some (jsonField "author" (jsonStr author)),
     some (jsonField "timestamp" (toString timestamp)),
     some (jsonField "content" (canonContent content))]

/-- The external cryptographic collaborators: SHA-256 hex digest over the
canonical string (`createEventIdAsync`), and the Identity module's
`signMessage`/`verifySignature` (message, signature and keys under the
byte-string/base64 identification). -/
structure Crypto where
  hashHex : String → String
  sign : String → String → String
  verify : String → String → String → Bool

/-- `createEventIdAsync`: hash of the canonical event data. -/
def createEventId (c : Crypto) (t : EventType) (author : String)
    (timestamp : Nat) (content : Content) : String :=
  c.hashHex (canonEventData t author timestamp content)

/-- `createPostEvent`: build canonical content (plaintext or E2EE), hash,
sign `id + JSON.stringify(content)`, assemble.  `Date.now()` is the
explicit `timestamp` parameter. -/
def createPostEvent (c : Crypto) (text : String) (authorPublicKey : String)
    (authorPrivateKey : String) (mentions : Option (List String))
    (replyTo : Option String) (encryptedPayload : Option String)
    (topic : Option String) (timestamp : Nat) : Event :=
  let author := authorPublicKey
  let topicVal := match topic with
    | some t => if trimStr t = "" then DEFAULT_TOPIC else trimStr t
    | none => DEFAULT_TOPIC
  let content : Content := match encryptedPayload with
    | some p => .post ⟨some topicVal, none, none, none, some p⟩
    | none => .post ⟨some topicVal, some text, mentions,
        Option.filter (fun r => r != "") replyTo, none⟩
  let id := createEventId c .post author timestamp content
  let message := id ++ canonContent content
  let signature := c.sign message authorPrivateKey
  ⟨id, author, timestamp, signature, content⟩

/-- `createFollowEvent`. -/
def createFollowEvent (c : Crypto) (targetPublicKey : String)
    (authorPublicKey : String) (authorPrivateKey : String)
    (encryptionPublicKeyBase64 : Option String) (timestamp : Nat) : Event :=
  let content : Content := .follow ⟨targetPublicKey,
    Option.filter (fun k => k != "") encryptionPublicKeyBase64⟩
  let id := createEventId c .follow authorPublicKey timestamp content
  let message := id ++ canonContent content
  let signature := c.sign message authorPrivateKey
  ⟨id, authorPublicKey, timestamp, signature, content⟩

/-- `createUnfollowEvent`. -/
def createUnfollowEvent (c : Crypto) (targetPublicKey : String)
    (authorPublicKey : String) (authorPrivateKey : String)
    (timestamp : Nat) : Event :=
  let content : Content := .unfollow ⟨targetPublicKey⟩
  let id := createEventId c .unfollow authorPublicKey timestamp content
  let message := id ++ canonContent content
  let signature := c.sign message authorPrivateKey
  ⟨id, authorPublicKey, timestamp, signature, content⟩

/-- First `n` UTF-16-ish units of a string (`String.prototype.slice(0, n)`). -/
def strTake (s : String) (n : Nat) : String := (s.toList.take n).asString

/-- Keep only `[a-z0-9_]` (the username `replace(/[^a-z0-9_]/g, '')`). -/
def usernameClean (s : String) : String :=
  (s.toList.filter (fun ch =>
    (('a' ≤ ch ∧ ch ≤ 'z') ∨ ('0' ≤ ch ∧ ch ≤ '9') ∨ ch = '_' : Bool))).asString

/-- `createProfileEvent`: clean the content (trim/limit each field), hash,
sign, assemble. -/
def createProfileEvent (c : Crypto) (authorPublicKey : String)
    (authorPrivateKey : String) (content : ProfileContent)
    (timestamp : Nat) : Event :=
  let clean : ProfileContent :=
    ⟨content.displayName.map (fun s => strTake (trimStr s) 32),
     content.username.map (fun s => strTake (usernameClean (toLowerStr (trimStr s))) 30),
     content.bio.map (fun s => strTake (trimStr s) 160)⟩
  let cc : Content := .profile clean
  let id := createEventId c .profile authorPublicKey timestamp cc
  let message := id ++ canonContent cc
  let signature := c.sign message authorPrivateKey
  ⟨id, authorPublicKey, timestamp, signature, cc⟩

/-- `verifyEvent`: recompute the expected id from the event's declared
fields and require equality, then verify the signature over
`id + JSON.stringify(content)` against `event.author`. -/
def verifyEvent (c : Crypto) (e : Event) : Bool :=
  let expectedId := createEventId c e.type e.author e.timestamp e.content
  if expectedId = e.id then
    c.verify (e.id ++ canonContent e.content) e.signature e.author
  else false

/-- `isValidEvent`: required fields present (the JS falsy check on the
strings `id`, `author`, `signature`; `type` is an enum here and is always
present), `type` in the literal list `['post', 'follow', 'unfollow']`,
then `verifyEvent`.  Note the literal list omits `'profile'`. -/
def isValidEvent (c : Crypto) (e : Event) : Bool :=
  if e.id = "" ∨ e.author = "" ∨ e.signature = "" then false
  else if e.type ∉ [EventType.post, EventType.follow, EventType.unfollow] then false
  else verifyEvent c e

/-! ## Storage layer -/

/-- A row of the `profiles` object store (keyed by `author`). -/
structure ProfileRow where
  author : String
  displayName : Option String
  username : Option String
  bio : Option String
  updatedAt : Nat
deriving DecidableEq, Repr

/-- The IndexedDB database: `events` keyed by id, `follows` keyed by id,
`profiles` keyed by author (the `peers` and `settings` stores play no role
in the claims). -/
structure DB where
  events : List Event
  follows : List Event
  profiles : List ProfileRow
deriving DecidableEq, Repr

/-- The empty database. -/
def emptyDB : DB := ⟨[], [], []⟩

/-- `db.put` on an object store: upsert by key. -/
def upsertBy {α : Type} (key : α → String) (x : α) : List α → List α
  | [] => [x]
  | y :: ys => if key y = key x then x :: ys else y :: upsertBy key x ys

/-- `storeEvent`: put into `events`; when the event is a profile event,
additionally put the profile projection row keyed by author (the put is
unconditional: no timestamp comparison with any existing row). -/
def storeEvent (e : Event) (db : DB) : DB :=
  let db1 : DB := { db with events := upsertBy Event.id e db.events }
  match e.content with
  | .profile pc =>
      let row : ProfileRow := ⟨e.author, pc.displayName, pc.username, pc.bio, e.timestamp⟩
      { db1 with profiles := upsertBy ProfileRow.author row db1.profiles }
  | _ => db1

/-- The raw `profiles` row for an author (`db.get('profiles', author)`). -/
def getProfileRow (db : DB) (author : String) : Option ProfileRow :=
  db.profiles.find? (fun r => r.author = author)

/-- `getProfile`: the stored row with each field trimmed. -/
def getProfile (db : DB) (author : String) :
    Option (Option String × Option String × Option String) :=
  (getProfileRow db author).map (fun r =>
    (r.displayName.map trimStr, r.username.map trimStr, r.bio.map trimStr))

/-- `getEvent`: point get by id. -/
def getEvent (db : DB) (eventId : String) : Option Event :=
  db.events.find? (fun e => e.id = eventId)

/-- `hasEvent`: `count(id) > 0`. -/
def hasEvent (db : DB) (eventId : String) : Bool :=
  (getEvent db eventId).isSome

/-- `getAllEventIds`: the set of all stored event ids (a JS `Set`, so
deduplicated). -/
def getAllEventIds (db : DB) : List String :=
  (db.events.map Event.id).dedup

/-- Descending timestamp sort (`.sort((a, b) => b.timestamp - a.timestamp)`). -/
def sortTsDesc (l : List Event) : List Event :=
  l.insertionSort (fun a b => b.timestamp ≤ a.timestamp)

/-- Ascending timestamp sort (`.sort((a, b) => a.timestamp - b.timestamp)`). -/
def sortTsAsc (l : List Event) : List Event :=
  l.insertionSort (fun a b => a.timestamp ≤ b.timestamp)

/-- `getEventsByAuthor` (without the optional limit, which no claim uses):
all events by the author, descending by timestamp. -/
def getEventsByAuthor (db : DB) (author : String) : List Event :=
  sortTsDesc (db.events.filter (fun e => e.author = author))

/-- `getEventsInRange()` with no bounds: all events, descending. -/
def getEventsInRange (db : DB) : List Event :=
  sortTsDesc db.events

/-- Topic normalization (`topic.trim().toLowerCase() || DEFAULT_TOPIC`). -/
def normalizeTopic (t : String) : String :=
  let n := toLowerStr (trimStr t)
  if n = "" then DEFAULT_TOPIC else n

/-- The topic a stored post is filed under in `getPostsByTopic`'s filter
(`(e.content.topic ?? DEFAULT_TOPIC).trim().toLowerCase()`). -/
def postTopicNorm (e : Event) : String :=
  match e.content with
  | .post pc => toLowerStr (trimStr (pc.topic.getD DEFAULT_TOPIC))
  | _ => ""

/-- `getPostsByTopic`: posts whose normalized topic equals the normalized
argument, descending, first 100. -/
def getPostsByTopic (db : DB) (topic : String) : List Event :=
  let normalized := normalizeTopic topic
  let posts := (getEventsInRange db).filter
    (fun e => decide (e.type = .post) && decide (postTopicNorm e = normalized))
  (sortTsDesc posts).take 100

/-- `storeFollow`: put into the `follows` store (keyed by id). -/
def storeFollow (f : Event) (db : DB) : DB :=
  { db with follows := upsertBy Event.id f db.follows }

/-- The `content.target` of a follow/unfollow record (the `by-followee`
index key). -/
def contentTarget : Content → Option String
  | .follow fc => some fc.target
  | .unfollow uc => some uc.target
  | _ => none

/-- `getFollowsByAuthor`: all follow/unfollow records with
`author = follower`, descending by timestamp. -/
def getFollowsByAuthor (db : DB) (author : String) : List Event :=
  sortTsDesc (db.follows.filter (fun f => f.author = author))

/-- `getFollowersOf`: all follow/unfollow records whose `content.target`
is the author, descending by timestamp. -/
def getFollowersOf (db : DB) (author : String) : List Event :=
  sortTsDesc (db.follows.filter (fun f => contentTarget f.content = some author))

/-- `isFollowing`: scan the follower's records in the `follows` store and
return true as soon as one (of either type) has `content.target ===
followee`.  This is the source behaviour: no type or timestamp check. -/
def isFollowing (db : DB) (follower followee : String) : Bool :=
  db.follows.any (fun f =>
    decide (f.author = follower) && decide (contentTarget f.content = some followee))

/-! ## Gossip synchronizer -/

/-- `MAX_BATCH_SIZE` from the gossip source. -/
def MAX_BATCH_SIZE : Nat := 100

/-- One peer's gossip-relevant state: its database, its in-memory seen-id
set (a JS `Set`, used only through membership) and the FIFO rebroadcast
queue. -/
structure GossipState where
  db : DB
  seen : List String
  queue : List Event
deriving DecidableEq, Repr

/-- A freshly started peer over a database: `start()` loads
`seen = getAllEventIds()` and the queue is empty. -/
def startedPeer (db : DB) : GossipState := ⟨db, getAllEventIds db, []⟩

/-- `processIncomingEvent`: (a) discard if seen; (b) discard if invalid
(not stored, not queued, not marked seen); (c) if already persisted, mark
seen and stop; (d) otherwise persist, mark seen, enqueue for rebroadcast. -/
def processIncomingEvent (c : Crypto) (st : GossipState) (e : Event) : GossipState :=
  if e.id ∈ st.seen then st
  else if isValidEvent c e = false then st
  else if hasEvent st.db e.id then { st with seen := e.id :: st.seen }
  else { db := storeEvent e st.db, seen := e.id :: st.seen, queue := st.queue ++ [e] }

/-- `broadcastEvent` (local origin), its effect on local state: persist
via `storeEvent`, mark seen; the fan-out of `new-event` messages is pure
output. -/
def broadcastEvent (c : Crypto) (st : GossipState) (e : Event) : GossipState :=
  { st with db := storeEvent e st.db, seen := e.id :: st.seen }

/-- `requestEvents`: the ids of each `event-request` message sent, the
input split into consecutive batches of at most `MAX_BATCH_SIZE`. -/
def requestEvents : List String → List (List String)
  | [] => []
  | x :: xs =>
      ((x :: xs).take MAX_BATCH_SIZE) :: requestEvents ((x :: xs).drop MAX_BATCH_SIZE)
termination_by l => l.length
decreasing_by simp [MAX_BATCH_SIZE]; omega

/-- `handleEventRequest`'s reply body: the events the store actually has
among the requested ids, unknown ids silently omitted. -/
def respondEvents (db : DB) (ids : List String) : List Event :=
  ids.filterMap (getEvent db)

/-- One full bidirectional anti-entropy exchange between two started
peers, exactly the message flow of the source: A sends `sync-request` with
its full id set; B computes both halves of the symmetric difference,
replies `sync-response`, and issues `event-request` batches for the ids it
is missing; A, on the `sync-response`, issues `event-request` batches for
the ids it is missing; each side answers `event-request` from its store
(`handleEventRequest`) and processes the `event-response` bodies with
`processIncomingEvent`.  Replies are computed from the original stores;
this matches the source because requested ids always lie in the
responder's original id set and `storeEvent` upserts by id, so later
writes cannot change the body returned for an id the responder already
had. -/
def exchange (c : Crypto) (A B : GossipState) : GossipState × GossipState :=
  let idsA := getAllEventIds A.db
  let idsB := getAllEventIds B.db
  let missingB := idsA.filter (fun id => decide (id ∉ idsB))
  let missingA := idsB.filter (fun id => decide (id ∉ idsA))
  let eventsForB := ((requestEvents missingB).map (respondEvents A.db)).flatten
  let eventsForA := ((requestEvents missingA).map (respondEvents B.db)).flatten
  (eventsForA.foldl (processIncomingEvent c) A,
   eventsForB.foldl (processIncomingEvent c) B)

/-! ## Follow system -/

namespace FollowSystem

/-- Insertion into a JS `Set` materialized as an ordered list
(`Set.prototype.add`). -/
def setAdd (x : String) (l : List String) : List String :=
  if x ∈ l then l else l ++ [x]

/-- Deletion from a JS `Set` materialized as an ordered list. -/
def setDel (x : String) (l : List String) : List String :=
  l.filter (fun y => y ≠ x)

/-- `FollowSystem.follow`: create the signed follow event, persist it
locally via `storeFollow`, then hand it to the gossip synchronizer
(`broadcastEvent`: persist in `events`, mark seen, fan out). -/
def follow (c : Crypto) (st : GossipState) (myPublicKey myPrivateKey : String)
    (targetPublicKey : String) (encryptionPublicKey : Option String)
    (timestamp : Nat) : Event × GossipState :=
  let followEvent := createFollowEvent c targetPublicKey myPublicKey
    myPrivateKey encryptionPublicKey timestamp
  let st1 : GossipState := { st with db := storeFollow followEvent st.db }
  (followEvent, broadcastEvent c st1 followEvent)

/-- `FollowSystem.unfollow`: create the signed unfollow event and hand it
to the gossip synchronizer.  The source does not call `storeFollow` here
(its own comment: "For now, we'll just remove the follow from storage" —
and it does not do that either). -/
def unfollow (c : Crypto) (st : GossipState) (myPublicKey myPrivateKey : String)
    (targetPublicKey : String) (timestamp : Nat) : Event × GossipState :=
  let unfollowEvent := createUnfollowEvent c targetPublicKey myPublicKey
    myPrivateKey timestamp
  (unfollowEvent, broadcastEvent c st unfollowEvent)

/-- `FollowSystem.checkFollowing`. -/
def checkFollowing (db : DB) (myPublicKey targetPublicKey : String) : Bool :=
  isFollowing db myPublicKey targetPublicKey

/-- `FollowSystem.getFollowing`: replay the follower's follow/unfollow
records ascending by timestamp; a follow adds the target, an unfollow
removes it.  (The source also tracks a write-only `unfollowed` set, which
never influences the result.) -/
def getFollowing (db : DB) (myPublicKey : String) : List String :=
  let follows := getFollowsByAuthor db myPublicKey
  let sorted := sortTsAsc follows
  sorted.foldl (fun acc f =>
    match f.content with
    | .follow fc => setAdd fc.target acc
    | .unfollow uc => setDel uc.target acc
    | _ => acc) []

end FollowSystem

/-! ## Feed engine -/

/-- A feed item (`FeedItem`). -/
structure FeedItem where
  event : Event
  author : String
  timestamp : Nat
deriving DecidableEq, Repr

/-- The feed engine's state: home feed, active topic filter, topic feed. -/
structure FeedState where
  feedItems : List FeedItem
  topicFilter : Option String
  topicFeedItems : List FeedItem
deriving DecidableEq, Repr

/-- The feed engine's state at construction. -/
def initialFeed : FeedState := ⟨[], none, []⟩

/-- Wrap a (post) event as a feed item. -/
def toItem (e : Event) : FeedItem := ⟨e, e.author, e.timestamp⟩

/-- Descending timestamp sort on feed items. -/
def sortItemsDesc (l : List FeedItem) : List FeedItem :=
  l.insertionSort (fun a b => b.timestamp ≤ a.timestamp)

/-- `FeedEngine.refresh`: authors = self plus everyone currently followed;
collect their posts; sort descending by timestamp. -/
def FeedEngine.refresh (db : DB) (me : String) (st : FeedState) : FeedState :=
  let following := FollowSystem.getFollowing db me
  let authors := following.foldl (fun acc a => FollowSystem.setAdd a acc) [me]
  let allPosts := authors.foldl (fun acc a =>
    acc ++ (getEventsByAuthor db a).filter (fun e => decide (e.type = .post))) []
  { st with feedItems := sortItemsDesc (allPosts.map toItem) }

/-- `FeedEngine.addEvent`: only posts; if the post qualifies for the home
feed (own or followed author) and is not already present, push it and
re-sort; if its normalized topic matches the active topic filter and it is
not already in the topic feed, prepend it (no re-sort). -/
def FeedEngine.addEvent (db : DB) (me : String) (st : FeedState) (e : Event) : FeedState :=
  match e.content with
  | .post pc =>
      let topic := toLowerStr (trimStr (pc.topic.getD "general"))
      let following := FollowSystem.getFollowing db me
      let forHome := e.author = me ∨ e.author ∈ following
      let st1 : FeedState :=
        if forHome ∧ ¬ (st.feedItems.any (fun it => it.event.id = e.id)) then
          { st with feedItems := sortItemsDesc (st.feedItems ++ [toItem e]) }
        else st
      match st1.topicFilter with
      | some tf =>
          if tf ≠ "" ∧ topic = toLowerStr (trimStr tf) ∧
              ¬ (st1.topicFeedItems.any (fun it => it.event.id = e.id)) then
            { st1 with topicFeedItems := toItem e :: st1.topicFeedItems }
          else st1
      | none => st1
  | _ => st

/-- `FeedEngine.setTopicFilter`: store the trimmed topic, or null when
absent or trimming to empty. -/
def FeedEngine.setTopicFilter (st : FeedState) (topic : Option String) : FeedState :=
  { st with topicFilter := match topic with
      | none => none
      | some t => if trimStr t = "" then none else some (trimStr t) }

/-- `FeedEngine.refreshTopicFeed`: full recompute of the topic projection
from storage. -/
def FeedEngine.refreshTopicFeed (db : DB) (st : FeedState) (topic : String) : FeedState :=
  { st with topicFeedItems := (getPostsByTopic db topic).map toItem }

/-- `FeedEngine.getFeedItems` (without the optional limit): the topic feed
when a (non-empty) filter is active, else the home feed. -/
def FeedEngine.getFeedItems (st : FeedState) : List FeedItem :=
  match st.topicFilter with
  | some tf => if tf = "" then st.feedItems else st.topicFeedItems
  | none => st.feedItems

/-- One feed-engine operation of the kinds the claims quantify over; each
carries the storage snapshot it reads. -/
inductive FeedOp
  | refresh (db : DB)
  | addEvent (db : DB) (e : Event)
  | refreshTopicFeed (db : DB) (topic : String)
  | setTopicFilter (topic : Option String)

/-- Apply one feed-engine operation. -/
def applyOp (me : String) (st : FeedState) : FeedOp → FeedState
  | .refresh db => FeedEngine.refresh db me st
  | .addEvent db e => FeedEngine.addEvent db me st e
  | .refreshTopicFeed db t => FeedEngine.refreshTopicFeed db st t
  | .setTopicFilter t => FeedEngine.setTopicFilter st t

/-- Apply a sequence of feed-engine operations. -/
def applyOps (me : String) (ops : List FeedOp) (st : FeedState) : FeedState :=
  ops.foldl (applyOp me) st

/-! ## Specification-side helpers and concrete instances used by the
theorems below -/

/-- A peer with no state at all (fresh gossip protocol over an empty
store). -/
def emptyGossip : GossipState := ⟨emptyDB, [], []⟩

/-- The seen-set/store relationship `start()` establishes (`seen` loaded
as `getAllEventIds()`), stated on memberships. -/
def SeenMatchesDB (st : GossipState) : Prop :=
  ∀ x, x ∈ st.seen ↔ x ∈ getAllEventIds st.db

/-- The profile projection row a profile event writes. -/
def rowOf (e : Event) : ProfileRow :=
  match e.content with
  | .profile pc => ⟨e.author, pc.displayName, pc.username, pc.bio, e.timestamp⟩
  | _ => ⟨e.author, none, none, none, e.timestamp⟩

/-- The last (most recently appearing) profile event by an author in a
sequence of events. -/
def lastProfileEventBy (a : String) (es : List Event) : Option Event :=
  es.reverse.find? (fun e => decide (e.author = a) && decide (e.type = .profile))

/-- A concrete instantiation of the cryptographic collaborators used to
evaluate the model on concrete inputs: the digest is the canonical string
itself and every signature verifies (`∀ m, verify m (sign m sk) pk`). -/
def cryptoId : Crypto := ⟨fun s => s, fun m k => m ++ k, fun _ _ _ => true⟩

/-- A follow record A → B at t = 1 (concrete input). -/
def feW : Event := ⟨"f1", "A", 1, "s", .follow ⟨"B", none⟩⟩

/-- An unfollow record A → B at t = 2 (concrete input). -/
def ueW : Event := ⟨"u1", "A", 2, "s", .unfollow ⟨"B"⟩⟩

/-- The follows store after storing the follow at t = 1 and then the
unfollow at t = 2 for the same pair. -/
def dbC1 : DB := storeFollow ueW (storeFollow feW emptyDB)

/-- The gossip/storage state after `FollowSystem.follow` of B at t = 1. -/
def c5st1 : GossipState :=
  (FollowSystem.follow cryptoId emptyGossip "A" "k" "B" none 1).2

/-- ... and after `FollowSystem.unfollow` of B at t = 2. -/
def c5st2 : GossipState :=
  (FollowSystem.unfollow cryptoId c5st1 "A" "k" "B" 2).2

/-- A profile event by author A at t = 2 (the newer one). -/
def pNewW : Event := ⟨"p2", "A", 2, "s", .profile ⟨some "new", none, none⟩⟩

/-- A profile event by author A at t = 1 (the older one). -/
def pOldW : Event := ⟨"p1", "A", 1, "s", .profile ⟨some "old", none, none⟩⟩

/-- A correctly signed, fully populated profile event (concrete input for
the validation claim). -/
def profW : Event := createProfileEvent cryptoId "A" "k" ⟨some "alice", some "alice", none⟩ 5

/-- A structurally present but invalid incoming event (its type is
`profile`, which `isValidEvent` rejects). -/
def invW : Event := ⟨"x", "A", 0, "s", .profile ⟨none, none, none⟩⟩

/-- A valid follow event held only by peer A. -/
def e1W : Event := createFollowEvent cryptoId "B" "A" "k" none 1

/-- A valid unfollow event held only by peer B. -/
def e2W : Event := createUnfollowEvent cryptoId "C" "D" "k" 2

/-- Peer A, freshly started over a store holding exactly `e1W`. -/
def AW : GossipState := startedPeer (storeEvent e1W emptyDB)

/-- Peer B, freshly started over a store holding exactly `e2W`. -/
def BW : GossipState := startedPeer (storeEvent e2W emptyDB)

/-- A stored post in topic "general" at t = 2000. -/
def p2000W : Event := ⟨"q2", "P", 2000, "s", .post ⟨some "general", some "x", none, none, none⟩⟩

/-- A later-arriving post in topic "general" at t = 1000. -/
def p1000W : Event := ⟨"q1", "Q", 1000, "s", .post ⟨some "general", some "y", none, none, none⟩⟩

/-- Storage holding only the t = 2000 post. -/
def dbC7 : DB := storeEvent p2000W emptyDB

/-- Feed state after: activate the "general" topic filter, recompute the
topic feed from storage, then `addEvent` the older matching post. -/
def stC7 : FeedState := applyOps "me"
  [FeedOp.setTopicFilter (some "general"), FeedOp.refreshTopicFeed dbC7 "general",
   FeedOp.addEvent dbC7 p1000W] initialFeed

instance : IsTotal FeedItem (fun a b => b.timestamp ≤ a.timestamp) :=
  ⟨fun a b => Nat.le_total b.timestamp a.timestamp⟩

instance : IsTrans FeedItem (fun a b => b.timestamp ≤ a.timestamp) :=
  ⟨fun _ _ _ hab hbc => Nat.le_trans hbc hab⟩

/-! ## Helper lemmas -/

theorem requestEvents_flatten (l : List String) : (requestEvents l).flatten = l := by
  induction l using requestEvents.induct with
  | case1 => simp [requestEvents]
  | case2 x xs ih =>
      rw [requestEvents, List.flatten_cons, ih, List.take_append_drop]

theorem requestEvents_length (l : List String) :
    (requestEvents l).length = (l.length + (MAX_BATCH_SIZE - 1)) / MAX_BATCH_SIZE := by
  induction l using requestEvents.induct with
  | case1 => simp [requestEvents, MAX_BATCH_SIZE]
  | case2 x xs ih =>
      rw [requestEvents]
      simp only [MAX_BATCH_SIZE] at ih ⊢
      simp only [List.length_cons, ih, List.length_drop]
      omega

theorem requestEvents_batch_le (l : List String) :
    ∀ b ∈ requestEvents l, b.length ≤ MAX_BATCH_SIZE := by
  induction l using requestEvents.induct with
  | case1 => intro b hb; simp [requestEvents] at hb
  | case2 x xs ih =>
      intro b hb
      rw [requestEvents] at hb
      rcases List.mem_cons.mp hb with h | h
      · subst h; exact List.length_take_le _ _
      · exact ih b h

theorem mem_map_key_upsertBy {α : Type} (key : α → String) (x : α) (l : List α)
    (k : String) :
    k ∈ (upsertBy key x l).map key ↔ k = key x ∨ k ∈ l.map key := by
  induction l with
  | nil => simp [upsertBy]
  | cons y ys ih =>
      simp only [upsertBy]
      by_cases h : key y = key x
      · rw [if_pos h]
        simp only [List.map_cons, List.mem_cons, h]
        tauto
      · rw [if_neg h]
        simp only [List.map_cons, List.mem_cons, ih]
        tauto

theorem find?_upsertBy {α : Type} (key : α → String) (x : α) (l : List α)
    (k : String) :
    (upsertBy key x l).find? (fun y => decide (key y = k)) =
      if key x = k then some x else l.find? (fun y => decide (key y = k)) := by
  induction l with
  | nil =>
      simp only [upsertBy, List.find?]
      by_cases h : key x = k <;> simp [h]
  | cons y ys ih =>
      simp only [upsertBy]
      by_cases h : key y = key x
      · rw [if_pos h]
        by_cases hk : key x = k
        · simp [List.find?_cons, hk]
        · have hyk : ¬ key y = k := by rw [h]; exact hk
          simp [List.find?_cons, hk, hyk]
      · rw [if_neg h]
        by_cases hyk : key y = k
        · have hxk : ¬ key x = k := fun hxk => h (by rw [hxk, hyk])
          simp [List.find?_cons, hyk, hxk]
        · simp [List.find?_cons, hyk, ih]

theorem storeEvent_events (e : Event) (db : DB) :
    (storeEvent e db).events = upsertBy Event.id e db.events := by
  rcases e with ⟨i, a, t, s, cont⟩
  cases cont <;> rfl

theorem storeEvent_follows (e : Event) (db : DB) :
    (storeEvent e db).follows = db.follows := by
  rcases e with ⟨i, a, t, s, cont⟩
  cases cont <;> rfl

theorem mem_getAllEventIds {db : DB} {x : String} :
    x ∈ getAllEventIds db ↔ ∃ e ∈ db.events, e.id = x := by
  simp [getAllEventIds, List.mem_dedup, List.mem_map]

theorem mem_ids_storeEvent {e : Event} {db : DB} {x : String} :
    x ∈ getAllEventIds (storeEvent e db) ↔ x = e.id ∨ x ∈ getAllEventIds db := by
  simp only [getAllEventIds, List.mem_dedup, storeEvent_events]
  exact mem_map_key_upsertBy Event.id e db.events x

theorem hasEvent_iff {db : DB} {x : String} :
    hasEvent db x = true ↔ x ∈ getAllEventIds db := by
  rw [hasEvent, getEvent, Option.isSome_iff_exists, mem_getAllEventIds]
  constructor
  · rintro ⟨e, he⟩
    exact ⟨e, List.mem_of_find?_eq_some he, by simpa using List.find?_some he⟩
  · rintro ⟨e, he, hid⟩
    cases hfind : db.events.find? (fun e => decide (e.id = x)) with
    | some e' => exact ⟨e', rfl⟩
    | none =>
        exact absurd (by simpa using hid) (by simpa using List.find?_eq_none.mp hfind e he)

theorem seenMatches_process {c : Crypto} {st : GossipState} (h : SeenMatchesDB st)
    (e : Event) : SeenMatchesDB (processIncomingEvent c st e) := by
  unfold processIncomingEvent
  split
  · exact h
  · split
    · exact h
    · split
      · rename_i hhas
        intro x
        simp only [List.mem_cons]
        rw [h x]
        have : e.id ∈ getAllEventIds st.db := hasEvent_iff.mp hhas
        constructor
        · rintro (rfl | hx)
          · exact this
          · exact hx
        · exact fun hx => Or.inr hx
      · intro x
        simp only [List.mem_cons]
        rw [h x, mem_ids_storeEvent]

theorem mem_ids_process {c : Crypto} {st : GossipState} {e : Event} {x : String}
    (h : SeenMatchesDB st) (hv : isValidEvent c e = true) :
    x ∈ getAllEventIds (processIncomingEvent c st e).db ↔
      x = e.id ∨ x ∈ getAllEventIds st.db := by
  unfold processIncomingEvent
  split
  · rename_i hseen
    have : e.id ∈ getAllEventIds st.db := (h e.id).mp hseen
    constructor
    · exact fun hx => Or.inr hx
    · rintro (rfl | hx)
      · exact this
      · exact hx
  · split
    · rename_i hinv
      rw [hv] at hinv
      exact absurd hinv (by simp)
    · split
      · rename_i hhas
        have : e.id ∈ getAllEventIds st.db := hasEvent_iff.mp hhas
        constructor
        · exact fun hx => Or.inr hx
        · rintro (rfl | hx)
          · exact this
          · exact hx
      · exact mem_ids_storeEvent

theorem fold_process {c : Crypto} (es : List Event) :
    ∀ st : GossipState, SeenMatchesDB st → (∀ e ∈ es, isValidEvent c e = true) →
      SeenMatchesDB (es.foldl (processIncomingEvent c) st) ∧
      ∀ x, x ∈ getAllEventIds (es.foldl (processIncomingEvent c) st).db ↔
        x ∈ es.map Event.id ∨ x ∈ getAllEventIds st.db := by
  induction es with
  | nil => exact fun st h _ => ⟨h, fun x => by simp⟩
  | cons e es ih =>
      intro st h hv
      have h1 := seenMatches_process (c := c) h e
      have h2 := ih (processIncomingEvent c st e) h1
        (fun e' he' => hv e' (List.mem_cons_of_mem _ he'))
      refine ⟨h2.1, fun x => ?_⟩
      rw [List.foldl_cons, h2.2 x, mem_ids_process h (hv e (List.mem_cons_self _ _))]
      simp only [List.map_cons, List.mem_cons]
      tauto

theorem respondEvents_append (db : DB) (l l' : List String) :
    respondEvents db (l ++ l') = respondEvents db l ++ respondEvents db l' :=
  List.filterMap_append l l' _

theorem respond_chunks (db : DB) (ids : List String) :
    ((requestEvents ids).map (respondEvents db)).flatten = respondEvents db ids := by
  conv_rhs => rw [← requestEvents_flatten ids]
  generalize requestEvents ids = chunks
  induction chunks with
  | nil => rfl
  | cons b bs ih => rw [List.map_cons, List.flatten_cons, List.flatten_cons,
      respondEvents_append, ih]

theorem mem_respondEvents {db : DB} {ids : List String} {e : Event}
    (h : e ∈ respondEvents db ids) : e ∈ db.events := by
  rw [respondEvents, List.mem_filterMap] at h
  obtain ⟨i, _, hi⟩ := h
  exact List.mem_of_find?_eq_some hi

theorem map_id_respondEvents {db : DB} {ids : List String}
    (h : ∀ i ∈ ids, ∃ e ∈ db.events, e.id = i) :
    (respondEvents db ids).map Event.id = ids := by
  induction ids with
  | nil => rfl
  | cons i is ih =>
      obtain ⟨e, he, heid⟩ := h i (List.mem_cons_self _ _)
      have hsome : ∃ e', getEvent db i = some e' := by
        cases hfind : getEvent db i with
        | some e' => exact ⟨e', rfl⟩
        | none =>
            rw [getEvent, List.find?_eq_none] at hfind
            exact absurd (by simpa using heid) (by simpa using hfind e he)
      obtain ⟨e', he'⟩ := hsome
      have hid : e'.id = i := by
        rw [getEvent] at he'
        simpa using List.find?_some he'
      rw [respondEvents, List.filterMap_cons_some he', List.map_cons, hid]
      rw [respondEvents] at ih
      rw [ih (fun j hj => h j (List.mem_cons_of_mem _ hj))]

/-! ## Claim theorems -/

/-- C1: refuted on the code.  After storing a Follow at t = 1 and an
Unfollow at t = 2 for the pair (A, B), `isFollowing A B` returns `true`,
not `false`: the scan returns `true` for any record of the pair,
regardless of type or timestamp — an unfollow record alone even makes it
return `true`. -/
theorem isFollowing_ignores_unfollow_at_failing_input :
    feW.type = .follow ∧ ueW.type = .unfollow ∧
    feW.author = "A" ∧ ueW.author = "A" ∧
    contentTarget feW.content = some "B" ∧ contentTarget ueW.content = some "B" ∧
    feW.timestamp < ueW.timestamp ∧
    isFollowing dbC1 "A" "B" = true ∧
    isFollowing (storeFollow ueW emptyDB) "A" "B" = true := by decide

/-- C4: refuted on the code.  A correctly signed profile event with every
required field present satisfies `verifyEvent` but fails `isValidEvent`,
because the known-type list in `isValidEvent` is `['post', 'follow',
'unfollow']` and omits `'profile'`. -/
theorem isValidEvent_rejects_valid_profile_event :
    profW.id ≠ "" ∧ profW.author ≠ "" ∧ profW.signature ≠ "" ∧
    profW.type = .profile ∧
    verifyEvent cryptoId profW = true ∧
    isValidEvent cryptoId profW = false := by decide

/-- C5: refuted on the code.  After `follow(B)` at t = 1 then
`unfollow(B)` at t = 2, the unfollow event was never written to the local
`follows` store (only the follow record is there), so `getFollowing()`
still lists B and `checkFollowing(B)` still returns `true`. -/
theorem unfollow_not_persisted_locally :
    c5st2.db.follows.map Event.type = [EventType.follow] ∧
    FollowSystem.getFollowing c5st2.db "A" = ["B"] ∧
    FollowSystem.checkFollowing c5st2.db "A" "B" = true := by decide

/-- C8: an inbound event whose id is not in the seen set and which fails
`isValidEvent` leaves the whole gossip state unchanged: nothing stored,
nothing queued for rebroadcast, and its id is not added to the seen set. -/
theorem processIncomingEvent_invalid_noop (c : Crypto) (st : GossipState) (e : Event)
    (hseen : e.id ∉ st.seen) (hinv : isValidEvent c e = false) :
    processIncomingEvent c st e = st := by
  unfold processIncomingEvent
  rw [if_neg hseen, if_pos hinv]

/-- Witness for C8 at a concrete invalid event over the fresh state. -/
theorem processIncomingEvent_invalid_noop_witness :
    invW.id ∉ emptyGossip.seen ∧ isValidEvent cryptoId invW = false ∧
    processIncomingEvent cryptoId emptyGossip invW = emptyGossip :=
  ⟨by decide, by decide,
   processIncomingEvent_invalid_noop cryptoId emptyGossip invW (by decide) (by decide)⟩

/-- C9: `requestEvents` splits the requested ids into consecutive
`event-request` batches: concatenated they are exactly the input in order,
there are ceil(n / 100) of them, and none exceeds `MAX_BATCH_SIZE`. -/
theorem requestEvents_batches (eventIds : List String) :
    (requestEvents eventIds).flatten = eventIds ∧
    (requestEvents eventIds).length =
      (eventIds.length + (MAX_BATCH_SIZE - 1)) / MAX_BATCH_SIZE ∧
    ∀ b ∈ requestEvents eventIds, b.length ≤ MAX_BATCH_SIZE :=
  ⟨requestEvents_flatten eventIds, requestEvents_length eventIds,
   requestEvents_batch_le eventIds⟩

/-- Witness for C9 on a concrete 250-id request (3 batches). -/
theorem requestEvents_batches_witness :
    (requestEvents (List.replicate 250 "i")).flatten = List.replicate 250 "i" ∧
    (requestEvents (List.replicate 250 "i")).length =
      ((List.replicate 250 "i").length + (MAX_BATCH_SIZE - 1)) / MAX_BATCH_SIZE ∧
    ∀ b ∈ requestEvents (List.replicate 250 "i"), b.length ≤ MAX_BATCH_SIZE :=
  requestEvents_batches (List.replicate 250 "i")

/-- C10: `processIncomingEvent` persists only through `storeEvent`, which
never touches the `follows` collection; hence the follow-graph queries
`getFollowsByAuthor`, `getFollowersOf` and `isFollowing` are unaffected by
any event learned from a peer. -/
theorem processIncomingEvent_preserves_follows (c : Crypto) (st : GossipState)
    (e : Event) (a follower followee : String) :
    (processIncomingEvent c st e).db.follows = st.db.follows ∧
    getFollowsByAuthor (processIncomingEvent c st e).db a = getFollowsByAuthor st.db a ∧
    getFollowersOf (processIncomingEvent c st e).db a = getFollowersOf st.db a ∧
    isFollowing (processIncomingEvent c st e).db follower followee =
      isFollowing st.db follower followee := by
  have h : (processIncomingEvent c st e).db.follows = st.db.follows := by
    unfold processIncomingEvent
    split
    · rfl
    · split
      · rfl
      · split
        · rfl
        · exact storeEvent_follows e st.db
  exact ⟨h, by rw [getFollowsByAuthor, getFollowsByAuthor, h],
    by rw [getFollowersOf, getFollowersOf, h],
    by rw [isFollowing, isFollowing, h]⟩

theorem getProfileRow_storeEvent (e : Event) (db : DB) (a : String) :
    getProfileRow (storeEvent e db) a =
      if e.author = a ∧ e.type = .profile then some (rowOf e)
      else getProfileRow db a := by
  rcases e with ⟨i, au, ts, sg, cont⟩
  cases cont with
  | profile pc =>
      simp only [storeEvent, getProfileRow]
      rw [find?_upsertBy ProfileRow.author]
      by_cases h : au = a <;> simp [h, rowOf, Event.type, typeOf]
  | post pc =>
      simp [storeEvent, getProfileRow, Event.type, typeOf]
  | follow fc =>
      simp [storeEvent, getProfileRow, Event.type, typeOf]
  | unfollow uc =>
      simp [storeEvent, getProfileRow, Event.type, typeOf]

/-- C3, counterexample: store the newer profile event (t = 2) first, the
older one (t = 1) second; the projection then shows the older content, not
the content of the greatest-timestamp profile event. -/
theorem profile_projection_not_latest_by_timestamp :
    pOldW.timestamp < pNewW.timestamp ∧
    pNewW.type = .profile ∧ pOldW.type = .profile ∧ pNewW.author = pOldW.author ∧
    getProfileRow (storeEvent pOldW (storeEvent pNewW emptyDB)) "A" =
      some ⟨"A", some "old", none, none, 1⟩ ∧
    getProfileRow (storeEvent pOldW (storeEvent pNewW emptyDB)) "A" ≠
      some (rowOf pNewW) := by decide

/-- C3, amended: the profile projection row for an author equals the
content (and timestamp) of the most recently *stored* profile event by
that author — last write wins, regardless of timestamps. -/
theorem profile_projection_last_write_wins (es : List Event) (a : String) :
    getProfileRow (es.foldl (fun db e => storeEvent e db) emptyDB) a =
      (lastProfileEventBy a es).map rowOf := by
  induction es using List.reverseRecOn with
  | nil => rfl
  | append_singleton es e ih =>
      rw [List.foldl_append, List.foldl_cons, List.foldl_nil, getProfileRow_storeEvent]
      rw [lastProfileEventBy, List.reverse_append]
      simp only [List.reverse_cons, List.reverse_nil, List.nil_append,
        List.singleton_append, List.find?_cons]
      by_cases ha : e.author = a
      · by_cases ht : e.type = .profile
        · rw [if_pos ⟨ha, ht⟩]
          simp [ha, ht]
        · rw [if_neg (fun h => ht h.2), ih, lastProfileEventBy]
          simp [ht]
      · rw [if_neg (fun h => ha h.1), ih, lastProfileEventBy]
        simp [ha]

/-- C6: create/verify round-trip.  For any crypto collaborators whose
signature scheme is correct for the given keypair (`verify m (sign m sk)
pk = true` — the Identity module's contract), every event produced by
`createPostEvent`, `createFollowEvent`, `createUnfollowEvent` or
`createProfileEvent` verifies: the recomputed id over
`{type, author, timestamp, content}` equals the stored id, and the
signature over `id ++ canonical content` verifies against the author. -/
theorem verifyEvent_of_create (c : Crypto) (pk sk : String)
    (hsv : ∀ m, c.verify m (c.sign m sk) pk = true)
    (text : String) (mentions : Option (List String)) (replyTo : Option String)
    (encryptedPayload : Option String) (topic : Option String)
    (target : String) (encKey : Option String) (pc : ProfileContent) (ts : Nat) :
    verifyEvent c (createPostEvent c text pk sk mentions replyTo encryptedPayload topic ts) = true ∧
    verifyEvent c (createFollowEvent c target pk sk encKey ts) = true ∧
    verifyEvent c (createUnfollowEvent c target pk sk ts) = true ∧
    verifyEvent c (createProfileEvent c pk sk pc ts) = true := by
  refine ⟨?_, ?_, ?_, ?_⟩
  · cases encryptedPayload <;>
      · simp only [createPostEvent, verifyEvent, Event.type, typeOf]
        simpa using hsv _
  · simp only [createFollowEvent, verifyEvent, Event.type, typeOf]
    simpa using hsv _
  · simp only [createUnfollowEvent, verifyEvent, Event.type, typeOf]
    simpa using hsv _
  · simp only [createProfileEvent, verifyEvent, Event.type, typeOf]
    simpa using hsv _

/-- Witness for C6 at concrete inputs and a concrete correct scheme. -/
theorem verifyEvent_of_create_witness :
    verifyEvent cryptoId (createPostEvent cryptoId "hi" "A" "k" none none none (some "Tech ") 7) = true ∧
    verifyEvent cryptoId (createFollowEvent cryptoId "B" "A" "k" (some "enc") 7) = true ∧
    verifyEvent cryptoId (createUnfollowEvent cryptoId "B" "A" "k" 7) = true ∧
    verifyEvent cryptoId (createProfileEvent cryptoId "A" "k" ⟨some "Alice", some "alice", some "bio"⟩ 7) = true :=
  verifyEvent_of_create cryptoId "A" "k" (fun _ => rfl) "hi" none none none
    (some "Tech ") "B" (some "enc") ⟨some "Alice", some "alice", some "bio"⟩ 7

theorem sorted_sortItemsDesc (l : List FeedItem) :
    List.Sorted (fun a b => b.timestamp ≤ a.timestamp) (sortItemsDesc l) :=
  List.sorted_insertionSort _ l

theorem sorted_feedItems_applyOp (me : String) (st : FeedState) (op : FeedOp)
    (h : List.Sorted (fun a b : FeedItem => b.timestamp ≤ a.timestamp) st.feedItems) :
    List.Sorted (fun a b : FeedItem => b.timestamp ≤ a.timestamp)
      (applyOp me st op).feedItems := by
  cases op with
  | refresh db => exact sorted_sortItemsDesc _
  | refreshTopicFeed db t => exact h
  | setTopicFilter t => exact h
  | addEvent db e =>
      simp only [applyOp, FeedEngine.addEvent]
      rcases e with ⟨i, au, ts, sg, cont⟩
      cases cont with
      | post pc =>
          simp only []
          repeat' split
          all_goals first
            | exact sorted_sortItemsDesc _
            | exact h
      | follow fc => exact h
      | unfollow uc => exact h
      | profile pc => exact h

/-- C7, counterexample: with the "general" topic filter active and the
topic feed holding a post at t = 2000, `addEvent` of a matching post at
t = 1000 prepends it, so `getFeedItems()` returns timestamps [1000, 2000],
which is not non-increasing. -/
theorem topic_feed_order_broken_by_addEvent :
    (FeedEngine.getFeedItems stC7).map FeedItem.timestamp = [1000, 2000] ∧
    ¬ List.Pairwise (fun a b => b ≤ a)
        ((FeedEngine.getFeedItems stC7).map FeedItem.timestamp) := by decide

/-- C7, amended: after any sequence of `refresh`, `addEvent`,
`refreshTopicFeed` and `setTopicFilter` operations, the home feed is
non-increasing by timestamp, and therefore so is `getFeedItems()` whenever
no topic filter is active.  (The active topic feed does not satisfy this:
`addEvent` prepends a matching post even when it is older than the current
head — see the counterexample.) -/
theorem home_feed_sorted (me : String) (ops : List FeedOp) :
    List.Sorted (fun a b : FeedItem => b.timestamp ≤ a.timestamp)
      (applyOps me ops initialFeed).feedItems ∧
    ((applyOps me ops initialFeed).topicFilter = none →
      List.Sorted (fun a b : FeedItem => b.timestamp ≤ a.timestamp)
        (FeedEngine.getFeedItems (applyOps me ops initialFeed))) := by
  have main : ∀ st : FeedState,
      List.Sorted (fun a b : FeedItem => b.timestamp ≤ a.timestamp) st.feedItems →
      List.Sorted (fun a b : FeedItem => b.timestamp ≤ a.timestamp)
        (applyOps me ops st).feedItems := by
    induction ops with
    | nil => exact fun st h => h
    | cons op ops ih =>
        exact fun st h => ih (applyOp me st op) (sorted_feedItems_applyOp me st op h)
  have h1 := main initialFeed (by simp [initialFeed])
  refine ⟨h1, fun hf => ?_⟩
  rw [FeedEngine.getFeedItems, hf]
  exact h1

/-- Witness for C7 on the empty operation sequence. -/
theorem home_feed_sorted_witness :
    List.Sorted (fun a b : FeedItem => b.timestamp ≤ a.timestamp)
      (applyOps "m" [] initialFeed).feedItems ∧
    List.Sorted (fun a b : FeedItem => b.timestamp ≤ a.timestamp)
      (FeedEngine.getFeedItems (applyOps "m" [] initialFeed)) :=
  ⟨(home_feed_sorted "m" []).1, (home_feed_sorted "m" []).2 rfl⟩

theorem exchange_eq (c : Crypto) (A B : GossipState) :
    exchange c A B =
      ((respondEvents B.db ((getAllEventIds B.db).filter
          (fun id => decide (id ∉ getAllEventIds A.db)))).foldl
        (processIncomingEvent c) A,
       (respondEvents A.db ((getAllEventIds A.db).filter
          (fun id => decide (id ∉ getAllEventIds B.db)))).foldl
        (processIncomingEvent c) B) := by
  simp only [exchange]
  rw [respond_chunks, respond_chunks]

/-- C2: anti-entropy convergence.  For two started peers whose stores hold
valid events with disjoint id sets (and whose seen sets reflect their
stores, as `start()` establishes), one bidirectional
sync-request / sync-response / event-request / event-response exchange
makes both peers' `getAllEventIds` equal as sets. -/
theorem exchange_converges (c : Crypto) (A B : GossipState)
    (hA : ∀ e ∈ A.db.events, isValidEvent c e = true)
    (hB : ∀ e ∈ B.db.events, isValidEvent c e = true)
    (hdisj : ∀ x ∈ getAllEventIds A.db, x ∉ getAllEventIds B.db)
    (hsA : SeenMatchesDB A) (hsB : SeenMatchesDB B) :
    (getAllEventIds (exchange c A B).1.db).toFinset =
    (getAllEventIds (exchange c A B).2.db).toFinset := by
  rw [exchange_eq]
  have hmA : ∀ i ∈ (getAllEventIds B.db).filter
      (fun id => decide (id ∉ getAllEventIds A.db)), ∃ e ∈ B.db.events, e.id = i :=
    fun i hi => mem_getAllEventIds.mp (List.mem_filter.mp hi).1
  have hmB : ∀ i ∈ (getAllEventIds A.db).filter
      (fun id => decide (id ∉ getAllEventIds B.db)), ∃ e ∈ A.db.events, e.id = i :=
    fun i hi => mem_getAllEventIds.mp (List.mem_filter.mp hi).1
  have hvA : ∀ e ∈ respondEvents B.db ((getAllEventIds B.db).filter
      (fun id => decide (id ∉ getAllEventIds A.db))), isValidEvent c e = true :=
    fun e he => hB e (mem_respondEvents he)
  have hvB : ∀ e ∈ respondEvents A.db ((getAllEventIds A.db).filter
      (fun id => decide (id ∉ getAllEventIds B.db))), isValidEvent c e = true :=
    fun e he => hA e (mem_respondEvents he)
  have hfA := (fold_process _ A hsA hvA).2
  have hfB := (fold_process _ B hsB hvB).2
  apply Finset.ext
  intro x
  simp only [List.mem_toFinset]
  rw [hfA x, hfB x, map_id_respondEvents hmA, map_id_respondEvents hmB]
  simp only [List.mem_filter, decide_eq_true_eq]
  tauto

/-- Witness for C2: two started single-event peers with disjoint valid
stores converge. -/
theorem exchange_converges_witness :
    (getAllEventIds (exchange cryptoId AW BW).1.db).toFinset =
    (getAllEventIds (exchange cryptoId AW BW).2.db).toFinset :=
  exchange_converges cryptoId AW BW (by decide) (by decide) (by decide)
    (fun x => Iff.rfl) (fun x => Iff.rfl)

end Phemossa
